import Mathlib

/-!
Shallow embedding of the view-state reconciliation and gesture-interpretation
engine of `src/components/graph-view.js` (a React graph editor component).

Modelling conventions:
- JS numbers are rationals (`ℚ`).
- Node and edge keys are `String`s; the string key construction of the source
  (`key-` prefixes, `source_target` pairs) is kept verbatim.
- JS objects used as string-keyed dictionaries (`nodesMap`, `edgesMap`,
  `nodeTimeouts`, `edgeTimeouts`) are association lists; assignment is an
  insert-or-replace (`upsert`), `delete` is `eraseKey`, and property lookup is
  `lookupKey`.
- Handlers that can dereference a missing map entry (a JS `TypeError`) return
  `Except Unit`; `.error ()` marks the thrown exception.
- DOM writes and caller notifications are recorded as an `Effect` list instead
  of being performed.
-/

namespace GraphView

/-- A node of the graph: caller-chosen unique `key` plus a position.
Other caller-defined fields are irrelevant to the verified operations. -/
structure INode where
  key : String
  x : ℚ
  y : ℚ
deriving Repr, DecidableEq

/-- An edge, identified by the ordered pair of endpoint keys. -/
structure IEdge where
  source : String
  target : String
deriving Repr, DecidableEq

/-- Per-node index entry: the node, its position in the authoritative array at
last rebuild, and its adjacency lists. -/
structure INodeMapNode where
  node : INode
  originalArrIndex : Nat
  incomingEdges : List IEdge
  outgoingEdges : List IEdge
deriving Repr, DecidableEq

/-- Per-edge index entry. -/
structure IEdgeMapEntry where
  edge : IEdge
  originalArrIndex : Nat
deriving Repr, DecidableEq

abbrev NodesMap := List (String × INodeMapNode)
abbrev EdgesMap := List (String × IEdgeMapEntry)

/-- JS object property lookup on a string-keyed dictionary. -/
def lookupKey {α : Type} : List (String × α) → String → Option α
  | [], _ => none
  | p :: ps, k => if p.1 == k then some p.2 else lookupKey ps k

/-- JS object property assignment: replace the (unique) entry if the key is
present — keeping its position — and append it otherwise. -/
def upsert {α : Type} : List (String × α) → String → α → List (String × α)
  | [], k, v => [(k, v)]
  | p :: ps, k, v => if p.1 == k then (k, v) :: ps else p :: upsert ps k v

/-- JS `delete obj[k]`. -/
def eraseKey {α : Type} (m : List (String × α)) (k : String) :
    List (String × α) :=
  m.filter (fun p => !(p.1 == k))

/-- Update the value stored at a key in place (models mutating the object a
dictionary entry points at). -/
def mapUpdate {α : Type} (m : List (String × α)) (k : String) (f : α → α) :
    List (String × α) :=
  m.map (fun p => if p.1 == k then (p.1, f p.2) else p)

/-- Modelled from the spec: worker for `GraphUtils.getNodesMap`
(`graph-util.js` is not under `src/`). Spec section 3: a cache keyed by
`"key-" + nodeKey` holding `{ node, originalArrIndex, incomingEdges: [],
outgoingEdges: [] }` for each node of the authoritative array. -/
def getNodesMapAux : Nat → List INode → NodesMap → NodesMap
  | _, [], m => m
  | i, n :: ns, m =>
    getNodesMapAux (i + 1) ns
      (upsert m ("key-" ++ n.key)
        { node := n, originalArrIndex := i, incomingEdges := [], outgoingEdges := [] })

/-- Modelled from the spec: `GraphUtils.getNodesMap` (`graph-util.js` is not
under `src/`), per spec sections 3 and 4.1. -/
def getNodesMap (nodes : List INode) : NodesMap :=
  getNodesMapAux 0 nodes []

/-- Modelled from the spec: worker for `GraphUtils.getEdgesMap`
(`graph-util.js` is not under `src/`). Spec section 3: keyed by
`"source_target"`, value `{ edge, originalArrIndex }`. -/
def getEdgesMapAux : Nat → List IEdge → EdgesMap → EdgesMap
  | _, [], m => m
  | i, e :: es, m =>
    getEdgesMapAux (i + 1) es
      (upsert m (e.source ++ "_" ++ e.target) { edge := e, originalArrIndex := i })

/-- Modelled from the spec: `GraphUtils.getEdgesMap` (`graph-util.js` is not
under `src/`), per spec sections 3 and 4.1. -/
def getEdgesMap (edges : List IEdge) : EdgesMap :=
  getEdgesMapAux 0 edges []

/-- Modelled from the spec: `GraphUtils.linkNodesAndEdges` (`graph-util.js` is
not under `src/`). Spec section 4.1: cross-populates the incoming and outgoing
adjacency lists of each node entry, skipping edges whose endpoint is absent
from the map. -/
def linkNodesAndEdges (nodesMap : NodesMap) (edges : List IEdge) : NodesMap :=
  edges.foldl
    (fun m e =>
      match lookupKey m ("key-" ++ e.source), lookupKey m ("key-" ++ e.target) with
      | some _, some _ =>
        mapUpdate
          (mapUpdate m ("key-" ++ e.source)
            (fun en => { en with outgoingEdges := en.outgoingEdges ++ [e] }))
          ("key-" ++ e.target)
          (fun en => { en with incomingEdges := en.incomingEdges ++ [e] })
      | _, _ => m)
    nodesMap

/-- `state.selectedNodeObj`: either absent or `{ index, node }` where `node`
may itself be null. The index is an `Int` because the source stores `-1`. -/
structure SelectedNodeObj where
  index : Int
  node : Option INode
deriving Repr, DecidableEq

/-- `state.selectedEdgeObj`: either absent or `{ edge }` where `edge` may be
null. -/
structure SelectedEdgeObj where
  edge : Option IEdge
deriving Repr, DecidableEq

/-- The component state fields the verified handlers read and write. -/
structure GraphState where
  nodes : List INode
  edges : List IEdge
  nodesMap : NodesMap
  edgesMap : EdgesMap
  selectedNodeObj : Option SelectedNodeObj
  selectedEdgeObj : Option SelectedEdgeObj
  hoveredNode : Bool
  hoveredNodeData : Option INode
  edgeEndNode : Option INode
  draggingEdge : Bool
  draggedEdge : Option IEdge
  selectingNode : Bool
  componentUpToDate : Bool
deriving Repr, DecidableEq

/-- The props the verified handlers consult. `canCreateEdge` takes no argument
in the source; the two delete predicates take the entity. -/
structure GraphProps where
  readOnly : Bool
  canCreateEdge : Bool
  canDeleteNode : INode → Bool
  canDeleteEdge : IEdge → Bool

/-- Observable actions of a handler: DOM removals, element (re)renders and
caller notifications, in program order. -/
inductive Effect where
  | removeElement (id : String)
  | renderNode (id : String) (index : Int)
  | renderEdge (source : String) (target : Option String)
  | notifyDeleteNode (node : INode) (index : Nat) (nodes : List INode)
  | notifyDeleteEdge (edge : IEdge) (index : Nat) (edges : List IEdge)
  | notifySelectNode (node : Option INode)
  | notifySelectEdge (edge : Option IEdge)
  | notifyUpdateNode (node : INode)
  | notifyCreateNode (x y : ℚ)
  | notifyCreateEdge (source target : INode)
  | notifySwapEdge (source target : INode) (edge : IEdge)
deriving Repr, DecidableEq

/-- `syncRenderEdge`: returns without effect when `edge.source` is falsy; a
present `target` renders the `source-target` element, an absent one the
`custom` (transient) element. -/
def syncRenderEdge (source : String) (target : Option String) : List Effect :=
  if source = "" then [] else [Effect.renderEdge source target]

/-- `syncRenderConnectedEdgesFromNode`: skipped entirely while an edge drag is
active; otherwise re-renders the entry's incoming then outgoing edges. -/
def syncRenderConnectedEdgesFromNode (s : GraphState) (entry : INodeMapNode) :
    List Effect :=
  if s.draggingEdge then []
  else
    entry.incomingEdges.flatMap (fun e => syncRenderEdge e.source (some e.target))
      ++ entry.outgoingEdges.flatMap (fun e => syncRenderEdge e.source (some e.target))

/-- `syncRenderNode`: renders the node element and, when the node has an index
entry, its connected edges. -/
def syncRenderNode (s : GraphState) (node : INode) (i : Int) : List Effect :=
  Effect.renderNode ("node-" ++ node.key) i ::
    (match lookupKey s.nodesMap ("key-" ++ node.key) with
     | none => []
     | some entry => syncRenderConnectedEdgesFromNode s entry)

/-- In the source, `node.x = ...` / `Object.assign(node, position)` mutate the
node object that the `nodes` array and the `nodesMap` entry both reference, so
the model writes the updated node to both places. -/
def setNodeAt (s : GraphState) (index : Nat) (node : INode) : GraphState :=
  { s with
    nodes := s.nodes.set index node,
    nodesMap := mapUpdate s.nodesMap ("key-" ++ node.key) (fun en => { en with node := node }) }

/-- `deleteNode` (graph-view.js 357-379): reads `originalArrIndex` off the
node's index entry (throwing when the entry is missing), deletes the entry,
splices the authoritative `nodes` array, removes the node's rendered element
and notifies `onDeleteNode` then `onSelectNode(null)`. It does not touch
`edges` or `edgesMap`. -/
def deleteNode (s : GraphState) (selectedNode : INode) :
    Except Unit (GraphState × List Effect) :=
  match lookupKey s.nodesMap ("key-" ++ selectedNode.key) with
  | none => .error ()
  | some entry =>
    let originalArrIndex := entry.originalArrIndex
    let nodesMap := eraseKey s.nodesMap ("key-" ++ selectedNode.key)
    let nodes := s.nodes.eraseIdx originalArrIndex
    .ok
      ({ s with
          componentUpToDate := false, hoveredNode := false,
          nodes := nodes, nodesMap := nodesMap },
        [Effect.removeElement ("node-" ++ selectedNode.key ++ "-container"),
         Effect.notifyDeleteNode selectedNode originalArrIndex nodes,
         Effect.notifySelectNode none])

/-- `deleteEdge` (graph-view.js 381-406): returns silently when an endpoint is
falsy, otherwise reads `originalArrIndex` off the edge's index entry (throwing
when the entry is missing), splices the authoritative `edges` array, deletes
the entry, removes the rendered element and notifies `onDeleteEdge`. -/
def deleteEdge (s : GraphState) (selectedEdge : IEdge) :
    Except Unit (GraphState × List Effect) :=
  if selectedEdge.source = "" ∨ selectedEdge.target = "" then .ok (s, [])
  else
    match lookupKey s.edgesMap (selectedEdge.source ++ "_" ++ selectedEdge.target) with
    | none => .error ()
    | some entry =>
      let originalArrIndex := entry.originalArrIndex
      let edges := s.edges.eraseIdx originalArrIndex
      let edgesMap := eraseKey s.edgesMap (selectedEdge.source ++ "_" ++ selectedEdge.target)
      .ok
        ({ s with componentUpToDate := false, edges := edges, edgesMap := edgesMap },
          [Effect.removeElement
            ("edge-" ++ selectedEdge.source ++ "-" ++ selectedEdge.target ++ "-container"),
           Effect.notifyDeleteEdge selectedEdge originalArrIndex edges])

/-- The entity handed to `handleDelete`; the source discriminates node against
edge by the presence of a (nonempty) `source` field, which for authoritative
entities coincides with the constructor. -/
inductive Selected where
  | node (n : INode)
  | edge (e : IEdge)
deriving Repr, DecidableEq

/-- `handleDelete` (graph-view.js 408-421): gated on `readOnly` and a present
selection, then dispatches to `deleteNode` / `deleteEdge` behind the matching
permission predicate. -/
def handleDelete (p : GraphProps) (s : GraphState) (selected : Option Selected) :
    Except Unit (GraphState × List Effect) :=
  if p.readOnly ∨ selected.isNone then .ok (s, [])
  else
    match selected with
    | none => .ok (s, [])
    | some (.node n) =>
      if p.canDeleteNode n then deleteNode s n else .ok (s, [])
    | some (.edge e) =>
      if e.source ≠ "" ∧ p.canDeleteEdge e then deleteEdge s e else .ok (s, [])

/-- `createNewEdge` (graph-view.js 531-563): always removes the transient
custom edge element; requires a hovered end node, distinct drag-source and end
nodes, the `canCreateEdge` permission, and no index entry between the pair in
either direction; on success clears the drag state, renders the new edge and
notifies `onCreateEdge`. It never appends to `edges` itself. Reading
`hoveredNodeData[nodeKey]` with a null `hoveredNodeData` throws. -/
def createNewEdge (p : GraphProps) (s : GraphState) :
    Except Unit (GraphState × List Effect) :=
  let eff0 := Effect.removeElement "edge-custom-container"
  match s.edgeEndNode with
  | none => .ok (s, [eff0])
  | some edgeEndNode =>
    match s.hoveredNodeData with
    | none => .error ()
    | some hoveredNodeData =>
      let mapId1 := hoveredNodeData.key ++ "_" ++ edgeEndNode.key
      let mapId2 := edgeEndNode.key ++ "_" ++ hoveredNodeData.key
      if hoveredNodeData ≠ edgeEndNode ∧ p.canCreateEdge = true ∧
          lookupKey s.edgesMap mapId1 = none ∧ lookupKey s.edgesMap mapId2 = none then
        .ok
          ({ s with componentUpToDate := false, draggedEdge := none, draggingEdge := false },
            eff0 :: (syncRenderEdge hoveredNodeData.key (some edgeEndNode.key)
              ++ [Effect.notifyCreateEdge hoveredNodeData edgeEndNode]))
      else .ok (s, [eff0])

/-- `handleNodeUpdate` (graph-view.js 565-587): with `shiftKey` delegates to
`createNewEdge`; otherwise commits `position` onto `nodes[index]` (skipping a
missing index) and notifies `onUpdateNode`. Both paths end by clearing
`hoveredNode` and marking the component out of date. There is no `readOnly`
check in this handler. -/
def handleNodeUpdate (p : GraphProps) (s : GraphState) (position : ℚ × ℚ)
    (index : Nat) (shiftKey : Bool) : Except Unit (GraphState × List Effect) :=
  if shiftKey then
    match createNewEdge p s with
    | .error e => .error e
    | .ok (s1, effs) =>
      .ok ({ s1 with componentUpToDate := false, hoveredNode := false }, effs)
  else
    match s.nodes[index]? with
    | none => .ok ({ s with componentUpToDate := false, hoveredNode := false }, [])
    | some node =>
      let node := { node with x := position.1, y := position.2 }
      let s1 := setNodeAt s index node
      .ok ({ s1 with componentUpToDate := false, hoveredNode := false },
        [Effect.notifyUpdateNode node])

/-- `handleNodeMove` (graph-view.js 501-529): a no-op when `readOnly`. Without
`shiftKey` it writes the position onto `nodes[index]` in place (throwing when
the index is out of range) and synchronously re-renders the connected edges,
skipping them when the node's map entry is missing. With `shiftKey` and the
`canCreateEdge` permission it renders a transient edge and sets
`draggingEdge`. -/
def handleNodeMove (p : GraphProps) (s : GraphState) (position : ℚ × ℚ)
    (index : Nat) (shiftKey : Bool) : Except Unit (GraphState × List Effect) :=
  if p.readOnly then .ok (s, [])
  else if !shiftKey then
    match s.nodes[index]? with
    | none => .error ()
    | some node =>
      let node := { node with x := position.1, y := position.2 }
      let s1 := setNodeAt s index node
      match lookupKey s1.nodesMap ("key-" ++ node.key) with
      | none => .ok (s1, [])
      | some entry =>
        .ok (s1,
          entry.incomingEdges.flatMap (fun e => syncRenderEdge e.source (some e.target))
            ++ entry.outgoingEdges.flatMap (fun e => syncRenderEdge e.source (some e.target)))
  else if p.canCreateEdge then
    match s.nodes[index]? with
    | none => .error ()
    | some node =>
      .ok ({ s with draggingEdge := true }, syncRenderEdge node.key none)
  else .ok (s, [])

/-- `handleNodeSelected` (graph-view.js 626-648): records the new node
selection, re-renders the new and the previously selected node, and notifies
`onSelectNode` unless an edge is being created. `selectedEdgeObj` is not
touched. -/
def handleNodeSelected (s : GraphState) (node : INode) (index : Int)
    (creatingEdge : Bool) : GraphState × List Effect :=
  let previousSelection := s.selectedNodeObj.bind (fun o => o.node)
  let previousSelectionIndex : Int :=
    match previousSelection, s.selectedNodeObj with
    | some _, some obj => obj.index
    | _, _ => -1
  let s1 := { s with
    componentUpToDate := false,
    selectedNodeObj := some { index := index, node := some node } }
  (s1,
    syncRenderNode s1 node index
      ++ (match previousSelection with
          | some prev => syncRenderNode s1 prev previousSelectionIndex
          | none => [])
      ++ (if !creatingEdge then [Effect.notifySelectNode (some node)] else []))

/-- `handleEdgeSelected` (graph-view.js 452-469): requires nonempty dataset
source and target; reads `originalArrIndex` off the edge's index entry
(throwing when it is missing, or when the recorded index no longer points at
an edge), records the new edge selection, re-renders the new and the
previously selected edge, and notifies `onSelectEdge`. `selectedNodeObj` is
not touched. -/
def handleEdgeSelected (s : GraphState) (source target : String) :
    Except Unit (GraphState × List Effect) :=
  if source = "" ∨ target = "" then .ok (s, [])
  else
    match lookupKey s.edgesMap (source ++ "_" ++ target) with
    | none => .error ()
    | some entry =>
      match s.edges[entry.originalArrIndex]? with
      | none => .error ()
      | some edge =>
        let previousSelection := s.selectedEdgeObj.bind (fun o => o.edge)
        let s1 := { s with selectedEdgeObj := some { edge := some edge } }
        .ok (s1,
          syncRenderEdge edge.source (some edge.target)
            ++ (match previousSelection with
                | some prev => syncRenderEdge prev.source (some prev.target)
                | none => [])
            ++ [Effect.notifySelectEdge (some edge)])

/-- `handleSvgClicked` (graph-view.js 471-495): clicks on an edge delegate to
`handleEdgeSelected`; otherwise a pending `selectingNode` flag is consumed, or
the node selection is cleared (with `onSelectNode(null)` and a re-render of
the previous selection) and, when not `readOnly` and shift is held,
`onCreateNode` is fired at the click coordinates. `(obj && obj.index) || -1`
maps a stored index of `0` to `-1`. -/
def handleSvgClicked (p : GraphProps) (s : GraphState) (partOfEdge : Bool)
    (evSource evTarget : String) (shiftKey : Bool) (xy : ℚ × ℚ) :
    Except Unit (GraphState × List Effect) :=
  if partOfEdge then handleEdgeSelected s evSource evTarget
  else if s.selectingNode then .ok ({ s with selectingNode := false }, [])
  else
    let previousSelection := s.selectedNodeObj.bind (fun o => o.node)
    let previousSelectionIndex : Int :=
      match s.selectedNodeObj with
      | some obj => if obj.index = 0 then -1 else obj.index
      | none => -1
    let s1 := { s with selectedNodeObj := none }
    .ok (s1,
      Effect.notifySelectNode none ::
        ((match previousSelection with
          | some prev => syncRenderNode s1 prev previousSelectionIndex
          | none => [])
          ++ (if !p.readOnly && shiftKey then [Effect.notifyCreateNode xy.1 xy.2] else [])))

/-- `canSwap` (graph-view.js 350-355): a hovered node is present and the
(source, hovered) pair differs from the dragged edge's current endpoints. -/
def canSwap (sourceNode : INode) (hoveredNode : Option INode) (swapEdge : IEdge) :
    Bool :=
  match hoveredNode with
  | none => false
  | some h => swapEdge.source != sourceNode.key || swapEdge.target != h.key

/-- `handleZoomEnd` (graph-view.js 747-780): returns unless an edge drag is in
flight; clears the drag state, removes the transient element, retargets the
dragged edge to the hovered node when `canSwap` allows it (otherwise keeps the
original target), re-renders the edge and notifies `onSwapEdge` with the
source and (new) target index entries, throwing when either entry — or the
drag source's entry — is missing. -/
def handleZoomEnd (s : GraphState) : Except Unit (GraphState × List Effect) :=
  if !s.draggingEdge || s.draggedEdge.isNone then .ok (s, [])
  else
    match s.draggedEdge with
    | none => .ok (s, [])
    | some draggedEdge =>
      let s1 := { s with draggedEdge := none, draggingEdge := false }
      match lookupKey s.nodesMap ("key-" ++ draggedEdge.source) with
      | none => .error ()
      | some sourceEntry =>
        let draggedEdgeCopy :=
          match s.edgeEndNode with
          | some h =>
            if canSwap sourceEntry.node (some h) draggedEdge then
              { draggedEdge with target := h.key }
            else draggedEdge
          | none => draggedEdge
        match lookupKey s1.nodesMap ("key-" ++ draggedEdgeCopy.source),
            lookupKey s1.nodesMap ("key-" ++ draggedEdgeCopy.target) with
        | some a, some b =>
          .ok (s1,
            Effect.removeElement "edge-custom-container" ::
              (syncRenderEdge draggedEdgeCopy.source (some draggedEdgeCopy.target)
                ++ [Effect.notifySwapEdge a.node b.node draggedEdge]))
        | _, _ => .error ()

/-- The view transform `{ k, x, y }`. -/
structure IViewTransform where
  k : ℚ
  x : ℚ
  y : ℚ
deriving Repr, DecidableEq

/-- `modifyZoom` (graph-view.js 822-858): multiplies the scale by `1 + modK`,
rejecting (returns `none`, i.e. `false`, without calling `setZoom`) when the
target scale leaves the zoom extent; otherwise computes the translation
through the viewport-center anchoring arithmetic of the source and applies the
result. -/
def modifyZoom (viewTransform : IViewTransform) (extentMin extentMax : ℚ)
    (centerX centerY : ℚ) (modK modX modY : ℚ) : Option IViewTransform :=
  let targetZoom := viewTransform.k * (1 + modK)
  if targetZoom < extentMin ∨ targetZoom > extentMax then none
  else
    let k := targetZoom
    let translate0x := (centerX - viewTransform.x) / k
    let translate0y := (centerY - viewTransform.y) / k
    let lx := translate0x * k + viewTransform.x
    let ly := translate0y * k + viewTransform.y
    some
      { k := k,
        x := viewTransform.x + (centerX - lx) + modX,
        y := viewTransform.y + (centerY - ly) + modY }

/-- A rendered-content bounding box as returned by `getBBox()`. -/
structure BBox where
  x : ℚ
  y : ℚ
  width : ℚ
  height : ℚ
deriving Repr, DecidableEq

/-- `handleZoomToFit` (graph-view.js 783-819): an empty bounding box centers
the zoom range with zero translation; otherwise the scale is
`0.9 / max(w/W, h/H)` clamped to the zoom extent and the translation places
the box center at the viewport center. -/
def handleZoomToFit (viewBBox : BBox) (width height minZoom maxZoom : ℚ) :
    IViewTransform :=
  if viewBBox.width > 0 ∧ viewBBox.height > 0 then
    let dx := viewBBox.width
    let dy := viewBBox.height
    let x := viewBBox.x + viewBBox.width / 2
    let y := viewBBox.y + viewBBox.height / 2
    let k0 := (9 : ℚ) / 10 / max (dx / width) (dy / height)
    let k := if k0 < minZoom then minZoom else if k0 > maxZoom then maxZoom else k0
    { k := k, x := width / 2 - k * x, y := height / 2 - k * y }
  else
    { k := (minZoom + maxZoom) / 2, x := 0, y := 0 }

abbrev NodeTimeouts := List (String × (INode × Nat))
abbrev EdgeTimeouts := List (String × IEdge)

/-- `asyncRenderNode` (graph-view.js 943-950): `clearTimeout` on the entry
stored under `nodes-<key>`, then store the newly scheduled redraw there —
i.e. an insert-or-replace keyed by the node key. -/
def asyncRenderNode (timeouts : NodeTimeouts) (node : INode) (i : Nat) :
    NodeTimeouts :=
  upsert timeouts ("nodes-" ++ node.key) (node, i)

/-- `asyncRenderEdge` (graph-view.js 1017-1026): returns when an endpoint is
falsy, otherwise insert-or-replace the scheduled redraw under
`edges-<source>-<target>`. -/
def asyncRenderEdge (timeouts : EdgeTimeouts) (edge : IEdge) : EdgeTimeouts :=
  if edge.source = "" ∨ edge.target = "" then timeouts
  else upsert timeouts ("edges-" ++ edge.source ++ "-" ++ edge.target) edge

/-- `removeOldNodes` (graph-view.js 287-308): for every entry of the previous
node map whose key is gone from the new map, remove the rendered elements of
its outgoing then incoming edges, then the node's own rendered element. Only
DOM elements are touched. -/
def removeOldNodes (prevNodeMap nodesMap : NodesMap) : List Effect :=
  prevNodeMap.flatMap (fun p =>
    if (lookupKey nodesMap p.1).isSome then []
    else
      p.2.outgoingEdges.map (fun e =>
        Effect.removeElement ("edge-" ++ e.source ++ "-" ++ e.target ++ "-container"))
        ++ p.2.incomingEdges.map (fun e =>
          Effect.removeElement ("edge-" ++ e.source ++ "-" ++ e.target ++ "-container"))
        ++ [Effect.removeElement ("node-" ++ p.2.node.key ++ "-container")])

/-- `isEdgeSelected` (graph-view.js 963-968). -/
def isEdgeSelected (s : GraphState) (edge : IEdge) : Bool :=
  match s.selectedEdgeObj with
  | some obj =>
    match obj.edge with
    | some sel => sel.source == edge.source && sel.target == edge.target
    | none => false
  | none => false

/-- The `isSelected` value passed to a node component (graph-view.js 908):
`this.state.selectedNodeObj.node === node`. -/
def isNodeSelected (s : GraphState) (node : INode) : Bool :=
  match s.selectedNodeObj with
  | some obj => obj.node == some node
  | none => false

/-- The state a handler produced, `none` when it threw. -/
def resultState (r : Except Unit (GraphState × List Effect)) : Option GraphState :=
  match r with
  | .ok (s, _) => some s
  | .error _ => none

/-- The effects a handler produced up to normal completion, `[]` when it
threw. -/
def resultEffects (r : Except Unit (GraphState × List Effect)) : List Effect :=
  match r with
  | .ok (_, effs) => effs
  | .error _ => []

/-- Whether an effect is the `onCreateEdge` notification. -/
def isCreateEdgeNotify : Effect → Bool
  | .notifyCreateEdge _ _ => true
  | _ => false

/-- Whether a handler run fired `onCreateEdge`. -/
def firedCreateEdge (r : Except Unit (GraphState × List Effect)) : Bool :=
  (resultEffects r).any isCreateEdgeNotify

/-- Number of entries of a dictionary stored under a key. -/
def countKey {α : Type} (m : List (String × α)) (k : String) : Nat :=
  (m.filter (fun p => p.1 == k)).length

/-- Number of edges of a collection joining `a` and `b`, in either
direction. -/
def countBetween (edges : List IEdge) (a b : String) : Nat :=
  edges.countP (fun e => (e.source == a && e.target == b) || (e.source == b && e.target == a))

/-- The target key `handleZoomEnd` ends up rendering and reporting, given a
well-formed source entry: the hovered node's key whenever a node is hovered
and its key differs from the dragged edge's current target, the original
target otherwise. -/
def newTargetKey (s : GraphState) (de : IEdge) : String :=
  match s.edgeEndNode with
  | some h => if h.key ≠ de.target then h.key else de.target
  | none => de.target

/-- N same-key node redraw requests issued within one scheduling tick. -/
def scheduleNodeRedraws (timeouts : NodeTimeouts) (reqs : List (INode × Nat)) :
    NodeTimeouts :=
  reqs.foldl (fun m r => asyncRenderNode m r.1 r.2) timeouts

/-- N same-key edge redraw requests issued within one scheduling tick. -/
def scheduleEdgeRedraws (timeouts : EdgeTimeouts) (reqs : List IEdge) :
    EdgeTimeouts :=
  reqs.foldl (fun m e => asyncRenderEdge m e) timeouts

/-! Concrete fixtures used by counterexamples and witnesses. -/

def nodeA : INode := { key := "a", x := 0, y := 0 }

def nodeB : INode := { key := "b", x := 10, y := 10 }

def edgeAB : IEdge := { source := "a", target := "b" }

def exNodes : List INode := [nodeA, nodeB]

def exEdges : List IEdge := [edgeAB]

/-- A reconciled two-node one-edge state, as `getDerivedStateFromProps` builds
it. -/
def exState : GraphState :=
  { nodes := exNodes, edges := exEdges,
    nodesMap := linkNodesAndEdges (getNodesMap exNodes) exEdges,
    edgesMap := getEdgesMap exEdges,
    selectedNodeObj := none, selectedEdgeObj := none,
    hoveredNode := false, hoveredNodeData := none, edgeEndNode := none,
    draggingEdge := false, draggedEdge := none,
    selectingNode := false, componentUpToDate := true }

/-- Permissive props with the read-only flag raised. -/
def pRO : GraphProps :=
  { readOnly := true, canCreateEdge := true,
    canDeleteNode := fun _ => true, canDeleteEdge := fun _ => true }

/-- Permissive props with the read-only flag lowered. -/
def pRW : GraphProps :=
  { readOnly := false, canCreateEdge := true,
    canDeleteNode := fun _ => true, canDeleteEdge := fun _ => true }

/-- `exState` with the edge a→b selected. -/
def exStateSelEdge : GraphState :=
  { exState with selectedEdgeObj := some { edge := some edgeAB } }

/-- `exState` with node a selected. -/
def exStateSelNode : GraphState :=
  { exState with selectedNodeObj := some { index := 0, node := some nodeA } }

/-- `exState` mid edge-retarget of a→b, hovering the source node a. -/
def exStateDrag : GraphState :=
  { exState with
      draggingEdge := true, draggedEdge := some edgeAB, edgeEndNode := some nodeA }

/-- `exState` mid edge-retarget of a→b with no hovered node. -/
def exStateDragRevert : GraphState :=
  { exState with
      draggingEdge := true, draggedEdge := some edgeAB, edgeEndNode := none }

/-- An edgeless two-node state mid edge-draw from a over b. -/
def exStateDraw : GraphState :=
  { nodes := exNodes, edges := [],
    nodesMap := getNodesMap exNodes, edgesMap := getEdgesMap [],
    selectedNodeObj := none, selectedEdgeObj := none,
    hoveredNode := true, hoveredNodeData := some nodeA, edgeEndNode := some nodeB,
    draggingEdge := true, draggedEdge := none,
    selectingNode := false, componentUpToDate := true }

/-- `exStateDraw` after the caller appended the created edge a→b and the index
was rebuilt, now mid edge-draw in the opposite direction (from b over a). -/
def exStateDraw2 : GraphState :=
  { exStateDraw with
      edges := [edgeAB], edgesMap := getEdgesMap [edgeAB],
      hoveredNodeData := some nodeB, edgeEndNode := some nodeA }

/-! Dictionary lemmas. -/

theorem lookupKey_upsert_self {α : Type} (m : List (String × α)) (k : String) (v : α) :
    lookupKey (upsert m k v) k = some v := by
  induction m with
  | nil => simp [upsert, lookupKey]
  | cons p ps ih =>
    by_cases h : p.1 = k
    · simp [upsert, lookupKey, h]
    · simp [upsert, lookupKey, h, ih]

theorem lookupKey_upsert_ne {α : Type} (m : List (String × α)) (k k' : String) (v : α)
    (h : k' ≠ k) : lookupKey (upsert m k v) k' = lookupKey m k' := by
  induction m with
  | nil => simp [upsert, lookupKey, Ne.symm h]
  | cons p ps ih =>
    by_cases hp : p.1 = k
    · simp [upsert, lookupKey, hp, Ne.symm h]
    · simp [upsert, lookupKey, hp, ih]

theorem lookupKey_upsert_isSome {α : Type} (m : List (String × α)) (k k' : String) (v : α)
    (h : (lookupKey m k').isSome) : (lookupKey (upsert m k v) k').isSome := by
  by_cases hk : k' = k
  · subst hk; simp [lookupKey_upsert_self]
  · rwa [lookupKey_upsert_ne _ _ _ _ hk]

theorem lookupKey_eraseKey_self {α : Type} (m : List (String × α)) (k : String) :
    lookupKey (eraseKey m k) k = none := by
  induction m with
  | nil => simp [eraseKey, lookupKey]
  | cons p ps ih =>
    by_cases hp : p.1 = k
    · simpa [eraseKey, lookupKey, hp] using ih
    · simpa [eraseKey, lookupKey, hp] using ih

theorem mem_of_lookupKey {α : Type} (m : List (String × α)) (k : String) (v : α)
    (h : lookupKey m k = some v) : (k, v) ∈ m := by
  induction m with
  | nil => simp [lookupKey] at h
  | cons p ps ih =>
    obtain ⟨a, b⟩ := p
    by_cases hp : a = k
    · simp [lookupKey, hp] at h
      subst hp; subst h
      exact List.mem_cons_self _ _
    · simp [lookupKey, hp] at h
      exact List.mem_cons_of_mem _ (ih h)

theorem lookupKey_mapUpdate_self {α : Type} (m : List (String × α)) (k : String)
    (f : α → α) : lookupKey (mapUpdate m k f) k = (lookupKey m k).map f := by
  induction m with
  | nil => simp [mapUpdate, lookupKey]
  | cons p ps ih =>
    by_cases hp : p.1 = k
    · simp [mapUpdate, lookupKey, hp]
    · simpa [mapUpdate, lookupKey, hp] using ih

theorem countKey_cons_self {α : Type} (p : String × α) (ps : List (String × α))
    (k : String) (h : p.1 = k) : countKey (p :: ps) k = countKey ps k + 1 := by
  simp [countKey, h]

theorem countKey_cons_ne {α : Type} (p : String × α) (ps : List (String × α))
    (k : String) (h : ¬p.1 = k) : countKey (p :: ps) k = countKey ps k := by
  simp [countKey, h]

theorem countKey_upsert {α : Type} (m : List (String × α)) (k : String) (v : α)
    (h : countKey m k ≤ 1) : countKey (upsert m k v) k = 1 := by
  induction m with
  | nil => simp [upsert, countKey]
  | cons p ps ih =>
    by_cases hp : p.1 = k
    · rw [countKey_cons_self p ps k hp] at h
      have hzero : countKey ps k = 0 := by omega
      simp [upsert, hp, countKey_cons_self ((k, v)) ps k rfl, hzero]
    · rw [countKey_cons_ne p ps k hp] at h
      simp [upsert, hp]
      rw [countKey_cons_ne p _ k hp]
      exact ih h

/-! `getEdgesMap` lemmas: every edge of the collection is reachable in the
rebuilt index under its `source_target` key. -/

theorem getEdgesMapAux_isSome_mono (es : List IEdge) (i : Nat) (m : EdgesMap)
    (k : String) (h : (lookupKey m k).isSome) :
    (lookupKey (getEdgesMapAux i es m) k).isSome := by
  induction es generalizing i m with
  | nil => simpa [getEdgesMapAux] using h
  | cons e es ih => exact ih _ _ (lookupKey_upsert_isSome _ _ _ _ h)

theorem lookupKey_getEdgesMapAux_of_mem (es : List IEdge) (e : IEdge) (i : Nat)
    (m : EdgesMap) (h : e ∈ es) :
    (lookupKey (getEdgesMapAux i es m) (e.source ++ "_" ++ e.target)).isSome := by
  induction es generalizing i m with
  | nil => simp at h
  | cons e0 es ih =>
    rcases List.mem_cons.mp h with h0 | hmem
    · subst h0
      rw [getEdgesMapAux]
      exact getEdgesMapAux_isSome_mono _ _ _ _
        (by rw [lookupKey_upsert_self]; rfl)
    · exact ih _ _ hmem

theorem lookupKey_getEdgesMap_of_mem (edges : List IEdge) (e : IEdge)
    (h : e ∈ edges) :
    (lookupKey (getEdgesMap edges) (e.source ++ "_" ++ e.target)).isSome :=
  lookupKey_getEdgesMapAux_of_mem _ _ _ _ h

theorem countBetween_eq_zero (edges : List IEdge) (a b : String)
    (h1 : lookupKey (getEdgesMap edges) (a ++ "_" ++ b) = none)
    (h2 : lookupKey (getEdgesMap edges) (b ++ "_" ++ a) = none) :
    countBetween edges a b = 0 := by
  rw [countBetween, List.countP_eq_zero]
  intro e he hp
  simp only [Bool.or_eq_true, Bool.and_eq_true, beq_iff_eq] at hp
  have hs := lookupKey_getEdgesMap_of_mem edges e he
  rcases hp with ⟨hsrc, htgt⟩ | ⟨hsrc, htgt⟩
  · rw [hsrc, htgt, h1] at hs; simp at hs
  · rw [hsrc, htgt, h2] at hs; simp at hs

/-! Claim theorems. -/

/-- C5: `modifyZoom` never produces a transform scale outside
`[minZoom, maxZoom]`: it returns failure (`none`), leaving the transform
unchanged, exactly when the target scale `k * (1 + modK)` leaves the extent;
otherwise it succeeds with that scale, which lies inside the extent, and the
viewport-center anchoring arithmetic leaves a translation offset of exactly
`(modX, modY)`. -/
theorem modifyZoom_bounds (vt : IViewTransform) (emin emax cx cy modK modX modY : ℚ) :
    (modifyZoom vt emin emax cx cy modK modX modY = none ↔
      (vt.k * (1 + modK) < emin ∨ emax < vt.k * (1 + modK))) ∧
    (∀ vt', modifyZoom vt emin emax cx cy modK modX modY = some vt' →
      emin ≤ vt'.k ∧ vt'.k ≤ emax ∧ vt'.k = vt.k * (1 + modK) ∧
      (vt.k * (1 + modK) ≠ 0 → vt'.x = vt.x + modX ∧ vt'.y = vt.y + modY)) := by
  by_cases hcond : vt.k * (1 + modK) < emin ∨ vt.k * (1 + modK) > emax
  · constructor
    · simp [modifyZoom, hcond]
    · intro vt' h
      simp [modifyZoom, hcond] at h
  · push_neg at hcond
    obtain ⟨hlo, hhi⟩ := hcond
    constructor
    · simp only [modifyZoom]
      rw [if_neg (by push_neg; exact ⟨hlo, hhi⟩)]
      simp only [iff_iff_implies_and_implies]
      constructor
      · intro h; simp at h
      · intro h; exact absurd h (by push_neg; exact ⟨hlo, hhi⟩)
    · intro vt' h
      simp only [modifyZoom] at h
      rw [if_neg (by push_neg; exact ⟨hlo, hhi⟩)] at h
      obtain rfl : _ = vt' := Option.some_injective _ h
      refine ⟨hlo, hhi, rfl, ?_⟩
      intro hk
      constructor
      · show vt.x + (cx - ((cx - vt.x) / (vt.k * (1 + modK)) * (vt.k * (1 + modK)) + vt.x)) + modX = vt.x + modX
        rw [div_mul_cancel₀ _ hk]; ring
      · show vt.y + (cy - ((cy - vt.y) / (vt.k * (1 + modK)) * (vt.k * (1 + modK)) + vt.y)) + modY = vt.y + modY
        rw [div_mul_cancel₀ _ hk]; ring

/-- C5 witness: at scale 1, extent `[0.15, 1.5]` and zero deltas, the success
branch of `modifyZoom_bounds` applies and yields the in-bounds facts. -/
theorem modifyZoom_bounds_witness :
    (3/20 : ℚ) ≤ 1 ∧ (1 : ℚ) ≤ 3/2 ∧
      ((1 : ℚ), (3 : ℚ), (4 : ℚ)) = (1, 3, 4) := by
  have h := (modifyZoom_bounds ⟨1, 3, 4⟩ (3/20) (3/2) 400 300 0 0 0).2
    ⟨1, 3, 4⟩ (by norm_num [modifyZoom])
  exact ⟨by simpa using h.1, by simpa using h.2.1, rfl⟩

/-- C10: with all deltas zero and a current scale inside a positive zoom
extent, `modifyZoom` is an identity: it succeeds and re-applies exactly the
current scale and translation. -/
theorem modifyZoom_zero_delta_identity (vt : IViewTransform) (emin emax cx cy : ℚ)
    (hpos : 0 < emin) (hlo : emin ≤ vt.k) (hhi : vt.k ≤ emax) :
    modifyZoom vt emin emax cx cy 0 0 0 = some vt := by
  obtain ⟨k, x, y⟩ := vt
  have hk : k ≠ 0 := ne_of_gt (lt_of_lt_of_le hpos hlo)
  simp only [modifyZoom]
  rw [if_neg (by push_neg; constructor <;> simp_all)]
  have hx : x + (cx - ((cx - x) / (k * (1 + 0)) * (k * (1 + 0)) + x)) + 0 = x := by
    rw [div_mul_cancel₀ _ (by simpa using hk)]; ring
  have hy : y + (cy - ((cy - y) / (k * (1 + 0)) * (k * (1 + 0)) + y)) + 0 = y := by
    rw [div_mul_cancel₀ _ (by simpa using hk)]; ring
  simp only [IViewTransform.mk.injEq, hx, hy, Option.some.injEq]
  exact ⟨by ring, trivial, trivial⟩

/-- C10 witness: a concrete in-extent transform is reproduced unchanged. -/
theorem modifyZoom_zero_delta_identity_witness :
    modifyZoom ⟨1, 5, 6⟩ (3/20) (3/2) 100 50 0 0 0 = some ⟨1, 5, 6⟩ :=
  modifyZoom_zero_delta_identity ⟨1, 5, 6⟩ (3/20) (3/2) 100 50
    (by norm_num) (by norm_num) (by norm_num)

/-- C7: `handleZoomToFit` centers the zoom range with zero translation when
the bounding box is empty; otherwise the scale is
`0.9 / max(bboxWidth/viewportWidth, bboxHeight/viewportHeight)` clamped to
`[minZoom, maxZoom]` and the translation places the box center at the
viewport center. -/
theorem handleZoomToFit_spec (bbox : BBox) (width height emin emax : ℚ)
    (hminmax : emin ≤ emax) :
    (¬(bbox.width > 0 ∧ bbox.height > 0) →
      handleZoomToFit bbox width height emin emax =
        { k := (emin + emax) / 2, x := 0, y := 0 }) ∧
    ((bbox.width > 0 ∧ bbox.height > 0) →
      ∃ k, handleZoomToFit bbox width height emin emax =
          { k := k,
            x := width / 2 - k * (bbox.x + bbox.width / 2),
            y := height / 2 - k * (bbox.y + bbox.height / 2) } ∧
        k = min emax (max emin
          ((9 : ℚ) / 10 / max (bbox.width / width) (bbox.height / height))) ∧
        emin ≤ k ∧ k ≤ emax) := by
  constructor
  · intro h
    simp only [handleZoomToFit, if_neg h]
  · intro h
    set k0 := (9 : ℚ) / 10 / max (bbox.width / width) (bbox.height / height) with hk0
    refine ⟨if k0 < emin then emin else if k0 > emax then emax else k0, ?_, ?_, ?_, ?_⟩
    · simp only [handleZoomToFit, if_pos h]
    · by_cases h1 : k0 < emin
      · rw [if_pos h1, max_eq_left (le_of_lt h1), min_eq_right hminmax]
      · rw [if_neg h1]
        push_neg at h1
        rw [max_eq_right h1]
        by_cases h2 : k0 > emax
        · rw [if_pos h2, min_eq_left (le_of_lt h2)]
        · push_neg at h2
          rw [if_neg (not_lt.mpr h2), min_eq_right h2]
    · by_cases h1 : k0 < emin
      · rw [if_pos h1]
      · push_neg at h1
        rw [if_neg (not_lt.mpr h1)]
        by_cases h2 : k0 > emax
        · rw [if_pos h2]; exact hminmax
        · rw [if_neg h2]; exact h1
    · by_cases h1 : k0 < emin
      · rw [if_pos h1]; exact hminmax
      · rw [if_neg h1]
        by_cases h2 : k0 > emax
        · rw [if_pos h2]
        · rw [if_neg h2]; exact le_of_not_lt h2

/-- C7 witness (the spec scenario): viewport 800 by 600, extent
`[0.15, 1.5]`, a 100 by 100 box centered at the origin: scale clamps to 1.5
and the translation is (400, 300). -/
theorem handleZoomToFit_spec_witness :
    handleZoomToFit { x := -50, y := -50, width := 100, height := 100 }
      800 600 (3/20) (3/2) = { k := 3/2, x := 400, y := 300 } := by
  obtain ⟨k, heq, hk, -, -⟩ :=
    (handleZoomToFit_spec { x := -50, y := -50, width := 100, height := 100 }
      800 600 (3/20) (3/2) (by norm_num)).2 (by norm_num)
  rw [heq]
  norm_num [hk]

theorem scheduleNodeRedraws_coalesce (reqs : List (INode × Nat)) (key : String)
    (timeouts : NodeTimeouts) (last : INode × Nat)
    (hwf : countKey timeouts ("nodes-" ++ key) ≤ 1)
    (hkeys : ∀ r ∈ reqs, r.1.key = key)
    (hlast : reqs.getLast? = some last) :
    countKey (scheduleNodeRedraws timeouts reqs) ("nodes-" ++ key) = 1 ∧
    lookupKey (scheduleNodeRedraws timeouts reqs) ("nodes-" ++ key) = some last := by
  induction reqs generalizing timeouts with
  | nil => simp at hlast
  | cons r rs ih =>
    have hr : r.1.key = key := hkeys r (List.mem_cons_self _ _)
    have hstep : scheduleNodeRedraws timeouts (r :: rs) =
        scheduleNodeRedraws (asyncRenderNode timeouts r.1 r.2) rs := rfl
    have hcnt : countKey (asyncRenderNode timeouts r.1 r.2) ("nodes-" ++ key) = 1 := by
      unfold asyncRenderNode
      rw [hr]
      exact countKey_upsert _ _ _ hwf
    cases rs with
    | nil =>
      obtain rfl : r = last := by simpa using hlast
      refine ⟨by simpa [scheduleNodeRedraws] using hcnt, ?_⟩
      show lookupKey (asyncRenderNode timeouts r.1 r.2) _ = some r
      unfold asyncRenderNode
      rw [hr, lookupKey_upsert_self]
    | cons r2 rs2 =>
      rw [hstep]
      exact ih _ (le_of_eq hcnt)
        (fun x hx => hkeys x (List.mem_cons_of_mem _ hx))
        (by simpa [List.getLast?_cons_cons] using hlast)

theorem scheduleEdgeRedraws_coalesce (reqs : List IEdge) (src tgt : String)
    (timeouts : EdgeTimeouts)
    (hsrc : src ≠ "") (htgt : tgt ≠ "")
    (hwf : countKey timeouts ("edges-" ++ src ++ "-" ++ tgt) ≤ 1)
    (hkeys : ∀ e ∈ reqs, e = { source := src, target := tgt })
    (hne : reqs ≠ []) :
    countKey (scheduleEdgeRedraws timeouts reqs) ("edges-" ++ src ++ "-" ++ tgt) = 1 ∧
    lookupKey (scheduleEdgeRedraws timeouts reqs) ("edges-" ++ src ++ "-" ++ tgt) =
      some { source := src, target := tgt } := by
  induction reqs generalizing timeouts with
  | nil => exact absurd rfl hne
  | cons r rs ih =>
    obtain rfl : r = { source := src, target := tgt } :=
      hkeys r (List.mem_cons_self _ _)
    have hstep : scheduleEdgeRedraws timeouts
        ({ source := src, target := tgt } :: rs) =
        scheduleEdgeRedraws (asyncRenderEdge timeouts { source := src, target := tgt }) rs := rfl
    have hrun : asyncRenderEdge timeouts { source := src, target := tgt } =
        upsert timeouts ("edges-" ++ src ++ "-" ++ tgt)
          { source := src, target := tgt } := by
      unfold asyncRenderEdge
      rw [if_neg (by simp [hsrc, htgt])]
    have hcnt : countKey (asyncRenderEdge timeouts { source := src, target := tgt })
        ("edges-" ++ src ++ "-" ++ tgt) = 1 := by
      rw [hrun]; exact countKey_upsert _ _ _ hwf
    cases rs with
    | nil =>
      refine ⟨by simpa [scheduleEdgeRedraws] using hcnt, ?_⟩
      show lookupKey (asyncRenderEdge timeouts _) _ = _
      rw [hrun, lookupKey_upsert_self]
    | cons r2 rs2 =>
      rw [hstep]
      exact ih _ (le_of_eq hcnt)
        (fun x hx => hkeys x (List.mem_cons_of_mem _ hx))
        (by simp)

/-- C8: redraw scheduling is coalesced per entity key: a new request replaces
any pending request under the same `nodes-`/`edges-` timeout key and touches
no other key, and a burst of N same-entity requests within one tick leaves
exactly one pending redraw, the last one. -/
theorem asyncRender_coalescing (m : NodeTimeouts) (n : INode) (i : Nat)
    (me : EdgeTimeouts) (e : IEdge) :
    lookupKey (asyncRenderNode m n i) ("nodes-" ++ n.key) = some (n, i) ∧
    (∀ k, k ≠ "nodes-" ++ n.key → lookupKey (asyncRenderNode m n i) k = lookupKey m k) ∧
    (countKey m ("nodes-" ++ n.key) ≤ 1 →
      countKey (asyncRenderNode m n i) ("nodes-" ++ n.key) = 1) ∧
    (e.source ≠ "" → e.target ≠ "" →
      lookupKey (asyncRenderEdge me e) ("edges-" ++ e.source ++ "-" ++ e.target) = some e ∧
      (countKey me ("edges-" ++ e.source ++ "-" ++ e.target) ≤ 1 →
        countKey (asyncRenderEdge me e) ("edges-" ++ e.source ++ "-" ++ e.target) = 1)) ∧
    (∀ (reqs : List (INode × Nat)) (key : String) (last : INode × Nat),
      countKey m ("nodes-" ++ key) ≤ 1 → (∀ r ∈ reqs, r.1.key = key) →
      reqs.getLast? = some last →
      countKey (scheduleNodeRedraws m reqs) ("nodes-" ++ key) = 1 ∧
      lookupKey (scheduleNodeRedraws m reqs) ("nodes-" ++ key) = some last) ∧
    (∀ (ereqs : List IEdge) (src tgt : String),
      src ≠ "" → tgt ≠ "" → countKey me ("edges-" ++ src ++ "-" ++ tgt) ≤ 1 →
      (∀ e0 ∈ ereqs, e0 = { source := src, target := tgt }) → ereqs ≠ [] →
      countKey (scheduleEdgeRedraws me ereqs) ("edges-" ++ src ++ "-" ++ tgt) = 1 ∧
      lookupKey (scheduleEdgeRedraws me ereqs) ("edges-" ++ src ++ "-" ++ tgt) =
        some { source := src, target := tgt }) := by
  refine ⟨?_, ?_, ?_, ?_, ?_, ?_⟩
  · unfold asyncRenderNode; exact lookupKey_upsert_self _ _ _
  · intro k hk
    unfold asyncRenderNode
    exact lookupKey_upsert_ne _ _ _ _ hk
  · intro h
    unfold asyncRenderNode
    exact countKey_upsert _ _ _ h
  · intro hs ht
    have hrun : asyncRenderEdge me e =
        upsert me ("edges-" ++ e.source ++ "-" ++ e.target) e := by
      unfold asyncRenderEdge
      rw [if_neg (by simp [hs, ht])]
    exact ⟨by rw [hrun]; exact lookupKey_upsert_self _ _ _,
      fun h => by rw [hrun]; exact countKey_upsert _ _ _ h⟩
  · intro reqs key last h1 h2 h3
    exact scheduleNodeRedraws_coalesce reqs key m last h1 h2 h3
  · intro ereqs src tgt h1 h2 h3 h4 h5
    exact scheduleEdgeRedraws_coalesce ereqs src tgt me h1 h2 h3 h4 h5

/-- C8 witness: two rapid redraw requests for node `a` leave exactly one
pending redraw, holding the last requested position. -/
theorem asyncRender_coalescing_witness :
    countKey (scheduleNodeRedraws [] [(nodeA, 0), ({ nodeA with x := 5 }, 0)])
      ("nodes-" ++ "a") = 1 ∧
    lookupKey (scheduleNodeRedraws [] [(nodeA, 0), ({ nodeA with x := 5 }, 0)])
      ("nodes-" ++ "a") = some ({ nodeA with x := 5 }, 0) := by
  have h := (asyncRender_coalescing [] nodeA 0 [] edgeAB).2.2.2.2.1
    [(nodeA, 0), ({ nodeA with x := 5 }, 0)] "a" ({ nodeA with x := 5 }, 0)
    (by decide) (by decide) (by decide)
  exact h

theorem mem_syncRenderEdge (eff : Effect) (src : String) (tgt : Option String)
    (h : eff ∈ syncRenderEdge src tgt) : eff = Effect.renderEdge src tgt := by
  unfold syncRenderEdge at h
  split at h
  · simp at h
  · simpa using h

theorem mem_syncRenderConnectedEdges (s : GraphState) (entry : INodeMapNode)
    (eff : Effect) (h : eff ∈ syncRenderConnectedEdgesFromNode s entry) :
    ∃ src tgt, eff = Effect.renderEdge src tgt := by
  unfold syncRenderConnectedEdgesFromNode at h
  split at h
  · simp at h
  · rcases List.mem_append.mp h with h1 | h1 <;>
      · obtain ⟨e0, _, hm⟩ := List.mem_flatMap.mp h1
        exact ⟨_, _, mem_syncRenderEdge _ _ _ hm⟩

theorem mem_syncRenderNode (s : GraphState) (n : INode) (i : Int) (eff : Effect)
    (h : eff ∈ syncRenderNode s n i) :
    eff = Effect.renderNode ("node-" ++ n.key) i ∨
      ∃ src tgt, eff = Effect.renderEdge src tgt := by
  unfold syncRenderNode at h
  rcases List.mem_cons.mp h with h1 | h1
  · exact Or.inl h1
  · right
    revert h1
    split
    · intro h1; simp at h1
    · intro h1; exact mem_syncRenderConnectedEdges _ _ _ h1

/-- C1 (amended): under `readOnly`, `handleDelete` and `handleNodeMove` are
complete no-ops (state unchanged, no effects), and a canvas click fires no
`onCreateNode` and leaves the collections and indices unchanged (it may still
clear the selection); but `handleNodeUpdate` is not gated on `readOnly` — with
`shiftKey` down-free and a valid index it commits the dragged position into
the node collection and fires `onUpdateNode` regardless of the flag. -/
theorem readOnly_gating (p : GraphProps) (s : GraphState) (sel : Option Selected)
    (pos xy : ℚ × ℚ) (index : Nat) (shiftKey : Bool)
    (hro : p.readOnly = true) :
    handleDelete p s sel = .ok (s, []) ∧
    handleNodeMove p s pos index shiftKey = .ok (s, []) ∧
    (∀ s1 effs, handleSvgClicked p s false "" "" shiftKey xy = .ok (s1, effs) →
      s1.nodes = s.nodes ∧ s1.edges = s.edges ∧ s1.nodesMap = s.nodesMap ∧
      s1.edgesMap = s.edgesMap ∧ ∀ x y, Effect.notifyCreateNode x y ∉ effs) ∧
    (∀ n, s.nodes[index]? = some n →
      handleNodeUpdate p s pos index false =
        .ok ({ setNodeAt s index { n with x := pos.1, y := pos.2 } with
                componentUpToDate := false, hoveredNode := false },
          [Effect.notifyUpdateNode { n with x := pos.1, y := pos.2 }])) := by
  refine ⟨?_, ?_, ?_, ?_⟩
  · simp [handleDelete, hro]
  · simp [handleNodeMove, hro]
  · intro s1 effs hrun
    unfold handleSvgClicked at hrun
    rw [if_neg (by simp)] at hrun
    by_cases hsel : s.selectingNode
    · rw [if_pos hsel] at hrun
      simp only [Except.ok.injEq, Prod.mk.injEq] at hrun
      obtain ⟨ha, hb⟩ := hrun
      subst ha
      simp [← hb]
    · rw [if_neg hsel] at hrun
      simp only [Except.ok.injEq, Prod.mk.injEq] at hrun
      obtain ⟨ha, hb⟩ := hrun
      subst ha
      refine ⟨rfl, rfl, rfl, rfl, ?_⟩
      intro x y hmem
      rw [← hb] at hmem
      rcases List.mem_cons.mp hmem with h3 | h3
      · simp at h3
      · rcases List.mem_append.mp h3 with h4 | h4
        · revert h4
          split
          · intro h4
            rcases mem_syncRenderNode _ _ _ _ h4 with h5 | ⟨_, _, h5⟩ <;> simp at h5
          · intro h4; simp at h4
        · rw [hro] at h4
          simp at h4
  · intro n hn
    simp [handleNodeUpdate, hn]

/-- C1 witness: on the concrete two-node state with `readOnly` raised,
`handleDelete` and `handleNodeMove` no-op while `handleNodeUpdate` still
commits the new position and fires the notification. -/
theorem readOnly_gating_witness :
    handleDelete pRO exState none = .ok (exState, []) ∧
    handleNodeMove pRO exState (5, 7) 0 false = .ok (exState, []) ∧
    handleNodeUpdate pRO exState (5, 7) 0 false =
      .ok ({ setNodeAt exState 0 { nodeA with x := 5, y := 7 } with
              componentUpToDate := false, hoveredNode := false },
        [Effect.notifyUpdateNode { nodeA with x := 5, y := 7 }]) := by
  have h := readOnly_gating pRO exState none (5, 7) (1, 2) 0 false rfl
  exact ⟨h.1, h.2.1, h.2.2.2 nodeA (by decide)⟩

/-- C1 counterexample: with `readOnly = true`, `handleNodeUpdate` still
mutates the node collection and fires `onUpdateNode`, so not every mutating
operation is a notification-free no-op under `readOnly`. -/
theorem handleNodeUpdate_readOnly_counterexample :
    pRO.readOnly = true ∧
    (resultState (handleNodeUpdate pRO exState (5, 7) 0 false)).map GraphState.nodes =
      some [{ key := "a", x := 5, y := 7 }, nodeB] ∧
    Effect.notifyUpdateNode { key := "a", x := 5, y := 7 } ∈
      resultEffects (handleNodeUpdate pRO exState (5, 7) 0 false) := by
  exact ⟨rfl, by decide, by decide⟩

/-- C2 (amended): `deleteNode` removes the node from the authoritative node
collection and from the node index and fires `onDeleteNode` then
`onSelectNode(null)`, and the subsequent `removeOldNodes` reconciliation pass
removes the rendered element of every incident edge; but the authoritative
edge collection and the edge index are left unchanged, so edges referencing
the deleted node survive in the data. -/
theorem deleteNode_cascade (s : GraphState) (n : INode) (entry : INodeMapNode)
    (h : lookupKey s.nodesMap ("key-" ++ n.key) = some entry) :
    ∃ s1 effs, deleteNode s n = .ok (s1, effs) ∧
      s1.nodes = s.nodes.eraseIdx entry.originalArrIndex ∧
      lookupKey s1.nodesMap ("key-" ++ n.key) = none ∧
      s1.edges = s.edges ∧ s1.edgesMap = s.edgesMap ∧
      Effect.removeElement ("node-" ++ n.key ++ "-container") ∈ effs ∧
      Effect.notifyDeleteNode n entry.originalArrIndex
        (s.nodes.eraseIdx entry.originalArrIndex) ∈ effs ∧
      Effect.notifySelectNode none ∈ effs ∧
      ∀ e ∈ entry.incomingEdges ++ entry.outgoingEdges,
        Effect.removeElement ("edge-" ++ e.source ++ "-" ++ e.target ++ "-container")
          ∈ removeOldNodes s.nodesMap s1.nodesMap := by
  have hmem : ("key-" ++ n.key, entry) ∈ s.nodesMap := mem_of_lookupKey _ _ _ h
  refine ⟨{ s with
      componentUpToDate := false, hoveredNode := false,
      nodes := s.nodes.eraseIdx entry.originalArrIndex,
      nodesMap := eraseKey s.nodesMap ("key-" ++ n.key) },
    [Effect.removeElement ("node-" ++ n.key ++ "-container"),
     Effect.notifyDeleteNode n entry.originalArrIndex
       (s.nodes.eraseIdx entry.originalArrIndex),
     Effect.notifySelectNode none],
    by simp [deleteNode, h], rfl, lookupKey_eraseKey_self _ _, rfl, rfl,
    by simp, by simp, by simp, ?_⟩
  intro e he
  apply List.mem_flatMap.mpr
  refine ⟨("key-" ++ n.key, entry), hmem, ?_⟩
  rw [if_neg (by rw [lookupKey_eraseKey_self]; simp)]
  rcases List.mem_append.mp he with hin | hout
  · exact List.mem_append.mpr
      (Or.inl (List.mem_append.mpr (Or.inr (List.mem_map.mpr ⟨e, hin, rfl⟩))))
  · exact List.mem_append.mpr
      (Or.inl (List.mem_append.mpr (Or.inl (List.mem_map.mpr ⟨e, hout, rfl⟩))))

/-- C2 witness: deleting node a from the concrete two-node graph with edge
a→b removes a from the node collection and the node index, schedules the
rendered-element removal of the incident edge — and leaves the edge data
intact. -/
theorem deleteNode_cascade_witness :
    ∃ s1 effs, deleteNode exState nodeA = .ok (s1, effs) ∧
      s1.nodes = exState.nodes.eraseIdx 0 ∧
      lookupKey s1.nodesMap ("key-" ++ nodeA.key) = none ∧
      s1.edges = exState.edges ∧ s1.edgesMap = exState.edgesMap ∧
      Effect.removeElement ("node-" ++ nodeA.key ++ "-container") ∈ effs ∧
      Effect.notifyDeleteNode nodeA 0 (exState.nodes.eraseIdx 0) ∈ effs ∧
      Effect.notifySelectNode none ∈ effs ∧
      ∀ e ∈ ([] : List IEdge) ++ [edgeAB],
        Effect.removeElement ("edge-" ++ e.source ++ "-" ++ e.target ++ "-container")
          ∈ removeOldNodes exState.nodesMap s1.nodesMap :=
  deleteNode_cascade exState nodeA
    { node := nodeA, originalArrIndex := 0, incomingEdges := [],
      outgoingEdges := [edgeAB] } (by decide)

/-- C2 counterexample: after `deleteNode` of node a, the authoritative edge
collection still holds the edge a→b, which references the deleted node as its
source — the cascade the claim asserts does not happen in the data. -/
theorem deleteNode_cascade_counterexample :
    (resultState (deleteNode exState nodeA)).map GraphState.edges = some [edgeAB] ∧
    edgeAB.source = nodeA.key := by
  exact ⟨by decide, rfl⟩

/-- C9 (amended): only `handleNodeMove` treats a missing node index entry as
nothing to do — it skips the connected-edge redraws and returns normally,
with the already-performed in-place position write persisting; `deleteNode`,
`deleteEdge` and `handleZoomEnd` dereference the missing entry unconditionally
and throw instead of doing nothing. -/
theorem stale_lookup_behaviour (p : GraphProps) (s : GraphState) (n : INode)
    (e : IEdge) (pos : ℚ × ℚ) (index : Nat) :
    (lookupKey s.nodesMap ("key-" ++ n.key) = none → deleteNode s n = .error ()) ∧
    (e.source ≠ "" → e.target ≠ "" →
      lookupKey s.edgesMap (e.source ++ "_" ++ e.target) = none →
      deleteEdge s e = .error ()) ∧
    (s.draggingEdge = true → s.draggedEdge = some e →
      lookupKey s.nodesMap ("key-" ++ e.source) = none →
      handleZoomEnd s = .error ()) ∧
    (p.readOnly = false → ∀ nd, s.nodes[index]? = some nd →
      lookupKey s.nodesMap ("key-" ++ nd.key) = none →
      handleNodeMove p s pos index false =
        .ok (setNodeAt s index { nd with x := pos.1, y := pos.2 }, [])) := by
  refine ⟨?_, ?_, ?_, ?_⟩
  · intro h
    rw [deleteNode, h]
  · intro hs ht h
    rw [deleteEdge, if_neg (by simp [hs, ht]), h]
  · intro hdrag hde h
    rw [handleZoomEnd, if_neg (by simp [hdrag, hde]), hde]
    simp [h]
  · intro hro nd hnd h
    rw [handleNodeMove, if_neg (by simp [hro])]
    simp only [Bool.not_false, if_pos]
    rw [hnd]
    simp only [setNodeAt]
    rw [lookupKey_mapUpdate_self]
    rw [show ({ nd with x := pos.1, y := pos.2 } : INode).key = nd.key from rfl, h]
    rfl

/-- C9 witness: concrete stale-key lookups — deleting a node and an edge that
are absent from the indices throws rather than no-opping. -/
theorem stale_lookup_behaviour_witness :
    deleteNode exState { key := "c", x := 0, y := 0 } = .error () ∧
    deleteEdge exState { source := "c", target := "d" } = .error () := by
  have h := stale_lookup_behaviour pRW exState { key := "c", x := 0, y := 0 }
    { source := "c", target := "d" } (0, 0) 0
  exact ⟨h.1 (by decide), h.2.1 (by decide) (by decide) (by decide)⟩

/-- C9 counterexample: a `deleteNode` whose key has no index entry fails (a
thrown `TypeError` in the source) instead of doing nothing. -/
theorem stale_lookup_counterexample :
    deleteNode exState { key := "c", x := 0, y := 0 } = .error () := rfl

/-- C4 (amended): selection exclusivity holds per entity kind:
`handleNodeSelected` makes the new node the sole selected node and re-renders
the previously selected node (clearing its selected visuals), and
`handleEdgeSelected` does the same among edges; but selecting a node leaves a
previously selected edge still recorded as selected (and vice versa) — the
handlers never touch the other kind's selection slot, so cross-kind
exclusivity is only restored when the caller round-trips the new selection
through props. -/
theorem selection_per_kind (s : GraphState) (node : INode) (index : Int)
    (creatingEdge : Bool) :
    ((handleNodeSelected s node index creatingEdge).1.selectedNodeObj =
        some { index := index, node := some node } ∧
      (handleNodeSelected s node index creatingEdge).1.selectedEdgeObj =
        s.selectedEdgeObj ∧
      (∀ m, isNodeSelected (handleNodeSelected s node index creatingEdge).1 m = true ↔
        m = node) ∧
      (∀ prev pidx, s.selectedNodeObj = some { index := pidx, node := some prev } →
        Effect.renderNode ("node-" ++ prev.key) pidx ∈
          (handleNodeSelected s node index creatingEdge).2)) ∧
    (∀ src tgt entry edge s1 effs, src ≠ "" → tgt ≠ "" →
      lookupKey s.edgesMap (src ++ "_" ++ tgt) = some entry →
      s.edges[entry.originalArrIndex]? = some edge →
      handleEdgeSelected s src tgt = .ok (s1, effs) →
      s1.selectedEdgeObj = some { edge := some edge } ∧
      s1.selectedNodeObj = s.selectedNodeObj ∧
      (∀ ed, isEdgeSelected s1 ed = true ↔
        (edge.source = ed.source ∧ edge.target = ed.target)) ∧
      (∀ pe, s.selectedEdgeObj = some { edge := some pe } → pe.source ≠ "" →
        Effect.renderEdge pe.source (some pe.target) ∈ effs)) := by
  constructor
  · refine ⟨rfl, rfl, ?_, ?_⟩
    · intro m
      simp only [handleNodeSelected, isNodeSelected, beq_iff_eq, Option.some.injEq]
      exact eq_comm
    · intro prev pidx hprev
      simp [handleNodeSelected, hprev, syncRenderNode]
  · intro src tgt entry edge s1 effs hsrc htgt hlk hidx hrun
    unfold handleEdgeSelected at hrun
    rw [if_neg (by simp [hsrc, htgt]), hlk] at hrun
    simp only [hidx, Except.ok.injEq, Prod.mk.injEq] at hrun
    obtain ⟨ha, hb⟩ := hrun
    subst ha
    refine ⟨rfl, rfl, ?_, ?_⟩
    · intro ed
      simp [isEdgeSelected]
    · intro pe hpe hpes
      rw [← hb]
      simp [hpe, syncRenderEdge, hpes]

/-- C4 witness: with node a selected, selecting node b makes b the sole
selected node and re-renders a to clear its selected visuals. -/
theorem selection_per_kind_witness :
    (handleNodeSelected exStateSelNode nodeB 1 false).1.selectedNodeObj =
      some { index := 1, node := some nodeB } ∧
    Effect.renderNode ("node-" ++ "a") 0 ∈
      (handleNodeSelected exStateSelNode nodeB 1 false).2 ∧
    isNodeSelected (handleNodeSelected exStateSelNode nodeB 1 false).1 nodeA = false := by
  have h := (selection_per_kind exStateSelNode nodeB 1 false).1
  refine ⟨h.1, h.2.2.2 nodeA 0 rfl, ?_⟩
  have hiff := h.2.2.1 nodeA
  have hne : ¬(nodeA = nodeB) := by decide
  exact Bool.eq_false_iff.mpr (fun htrue => hne (hiff.mp htrue))

/-- C4 counterexample: with the edge a→b selected, selecting node b leaves the
edge still reported selected alongside the newly selected node — two entities
are in selected state at once. -/
theorem selection_exclusivity_counterexample :
    isEdgeSelected (handleNodeSelected exStateSelEdge nodeB 1 false).1 edgeAB = true ∧
    isNodeSelected (handleNodeSelected exStateSelEdge nodeB 1 false).1 nodeB = true := by
  decide

/-- C6 (amended): on release of an edge-retarget gesture the edge's target is
reassigned to the hovered node exactly when a node is hovered and the
resulting (source, hovered) pair differs from the edge's current endpoint
pair — equivalently, when the hovered node's key differs from the current
target; no check that the hovered node differs from the source and no check
for an existing connection in either direction is performed. With no hovered
node (or a hovered node equal to the current target) the edge keeps its
original target. -/
theorem handleZoomEnd_retarget (s : GraphState) (de : IEdge)
    (srcEntry tgtEntry : INodeMapNode)
    (hdrag : s.draggingEdge = true) (hde : s.draggedEdge = some de)
    (hsrc : lookupKey s.nodesMap ("key-" ++ de.source) = some srcEntry)
    (hwf : srcEntry.node.key = de.source)
    (htgt : lookupKey s.nodesMap ("key-" ++ newTargetKey s de) = some tgtEntry) :
    ∃ s1 effs, handleZoomEnd s = .ok (s1, effs) ∧
      s1.draggingEdge = false ∧ s1.draggedEdge = none ∧
      (de.source ≠ "" →
        Effect.renderEdge de.source (some (newTargetKey s de)) ∈ effs) ∧
      Effect.notifySwapEdge srcEntry.node tgtEntry.node de ∈ effs := by
  have hcopy : (match s.edgeEndNode with
      | some h0 =>
        if canSwap srcEntry.node (some h0) de then { de with target := h0.key } else de
      | none => de) = { de with target := newTargetKey s de } := by
    cases hE : s.edgeEndNode with
    | none => simp [newTargetKey, hE]
    | some h0 =>
      simp only [newTargetKey, hE]
      by_cases hk : h0.key = de.target
      · rw [if_neg (by simp [canSwap, hwf, hk]), if_neg (by simp [hk])]
      · rw [if_pos (by simp [canSwap]; exact Or.inr (fun hc => hk hc.symm)),
          if_pos hk]
  refine ⟨{ s with draggedEdge := none, draggingEdge := false },
    Effect.removeElement "edge-custom-container" ::
      (syncRenderEdge de.source (some (newTargetKey s de))
        ++ [Effect.notifySwapEdge srcEntry.node tgtEntry.node de]),
    ?_, rfl, rfl, ?_, ?_⟩
  · rw [handleZoomEnd, if_neg (by simp [hdrag, hde]), hde]
    simp only [hsrc, hcopy, htgt]
  · intro hsne
    simp [syncRenderEdge, hsne]
  · simp

/-- C6 witness: releasing the dragged edge a→b with no hovered node keeps the
original target b and reports the swap with the b entry. -/
theorem handleZoomEnd_retarget_witness :
    ∃ s1 effs, handleZoomEnd exStateDragRevert = .ok (s1, effs) ∧
      s1.draggingEdge = false ∧ s1.draggedEdge = none ∧
      (edgeAB.source ≠ "" →
        Effect.renderEdge edgeAB.source
          (some (newTargetKey exStateDragRevert edgeAB)) ∈ effs) ∧
      Effect.notifySwapEdge nodeA nodeB edgeAB ∈ effs :=
  handleZoomEnd_retarget exStateDragRevert edgeAB
    { node := nodeA, originalArrIndex := 0, incomingEdges := [],
      outgoingEdges := [edgeAB] }
    { node := nodeB, originalArrIndex := 1, incomingEdges := [edgeAB],
      outgoingEdges := [] }
    rfl rfl (by decide) (by decide) (by decide)

/-- C6 counterexample: releasing the dragged edge a→b while hovering its own
source node a retargets the edge onto a (a self-edge) instead of reverting —
the hovered node is not required to differ from the source, nor the pair to be
unconnected. -/
theorem handleZoomEnd_counterexample :
    Effect.renderEdge "a" (some "a") ∈ resultEffects (handleZoomEnd exStateDrag) ∧
    Effect.notifySwapEdge nodeA nodeA edgeAB ∈ resultEffects (handleZoomEnd exStateDrag) := by
  decide

/-- C3: `createNewEdge` fires `onCreateEdge` exactly when a hovered end node
exists, the drag-source node differs from it, `canCreateEdge` holds and the
edge index holds no entry between the pair in either direction; in every other
case the run is the bare transient-element cleanup with the state — in
particular the edge collection — unchanged, so two successive create attempts
over the same pair (in either order) against a rebuilt index leave exactly
one edge between the pair. -/
theorem createNewEdge_spec (p : GraphProps) (s : GraphState) (hov tgtN : INode)
    (hh : s.hoveredNodeData = some hov) (he : s.edgeEndNode = some tgtN) :
    (firedCreateEdge (createNewEdge p s) = true ↔
      (hov ≠ tgtN ∧ p.canCreateEdge = true ∧
        lookupKey s.edgesMap (hov.key ++ "_" ++ tgtN.key) = none ∧
        lookupKey s.edgesMap (tgtN.key ++ "_" ++ hov.key) = none)) ∧
    (∀ s1 effs, createNewEdge p s = .ok (s1, effs) →
      s1.edges = s.edges ∧ s1.edgesMap = s.edgesMap) ∧
    (firedCreateEdge (createNewEdge p s) = false →
      createNewEdge p s = .ok (s, [Effect.removeElement "edge-custom-container"])) ∧
    (s.edgesMap = getEdgesMap s.edges →
      lookupKey s.edgesMap (hov.key ++ "_" ++ tgtN.key) = none →
      lookupKey s.edgesMap (tgtN.key ++ "_" ++ hov.key) = none →
      countBetween (s.edges ++ [{ source := hov.key, target := tgtN.key }])
        hov.key tgtN.key = 1 ∧
      ∀ s2 : GraphState,
        s2.edges = s.edges ++ [{ source := hov.key, target := tgtN.key }] →
        s2.edgesMap = getEdgesMap s2.edges →
        ((s2.hoveredNodeData = some hov ∧ s2.edgeEndNode = some tgtN) ∨
          (s2.hoveredNodeData = some tgtN ∧ s2.edgeEndNode = some hov)) →
        firedCreateEdge (createNewEdge p s2) = false ∧
        createNewEdge p s2 = .ok (s2, [Effect.removeElement "edge-custom-container"])) := by
  have hneg : ∀ (st : GraphState) (a b : INode),
      st.hoveredNodeData = some a → st.edgeEndNode = some b →
      ¬(a ≠ b ∧ p.canCreateEdge = true ∧
        lookupKey st.edgesMap (a.key ++ "_" ++ b.key) = none ∧
        lookupKey st.edgesMap (b.key ++ "_" ++ a.key) = none) →
      createNewEdge p st = .ok (st, [Effect.removeElement "edge-custom-container"]) := by
    intro st a b h1 h2 hnc
    simp only [createNewEdge, h2, h1]
    rw [if_neg hnc]
  have hposr : ∀ (st : GraphState) (a b : INode),
      st.hoveredNodeData = some a → st.edgeEndNode = some b →
      (a ≠ b ∧ p.canCreateEdge = true ∧
        lookupKey st.edgesMap (a.key ++ "_" ++ b.key) = none ∧
        lookupKey st.edgesMap (b.key ++ "_" ++ a.key) = none) →
      createNewEdge p st =
        .ok ({ st with componentUpToDate := false, draggedEdge := none, draggingEdge := false },
          Effect.removeElement "edge-custom-container" ::
            (syncRenderEdge a.key (some b.key) ++ [Effect.notifyCreateEdge a b])) := by
    intro st a b h1 h2 hc
    simp only [createNewEdge, h2, h1]
    rw [if_pos hc]
  refine ⟨?_, ?_, ?_, ?_⟩
  · by_cases hc : hov ≠ tgtN ∧ p.canCreateEdge = true ∧
        lookupKey s.edgesMap (hov.key ++ "_" ++ tgtN.key) = none ∧
        lookupKey s.edgesMap (tgtN.key ++ "_" ++ hov.key) = none
    · refine iff_of_true ?_ hc
      rw [hposr s hov tgtN hh he hc]
      simp [firedCreateEdge, resultEffects, isCreateEdgeNotify]
    · refine iff_of_false ?_ hc
      rw [hneg s hov tgtN hh he hc]
      simp [firedCreateEdge, resultEffects, isCreateEdgeNotify]
  · intro s1 effs hrun
    by_cases hc : hov ≠ tgtN ∧ p.canCreateEdge = true ∧
        lookupKey s.edgesMap (hov.key ++ "_" ++ tgtN.key) = none ∧
        lookupKey s.edgesMap (tgtN.key ++ "_" ++ hov.key) = none
    · rw [hposr s hov tgtN hh he hc] at hrun
      simp only [Except.ok.injEq, Prod.mk.injEq] at hrun
      obtain ⟨ha, -⟩ := hrun
      subst ha
      exact ⟨rfl, rfl⟩
    · rw [hneg s hov tgtN hh he hc] at hrun
      simp only [Except.ok.injEq, Prod.mk.injEq] at hrun
      obtain ⟨ha, -⟩ := hrun
      subst ha
      exact ⟨rfl, rfl⟩
  · intro hfired
    by_cases hc : hov ≠ tgtN ∧ p.canCreateEdge = true ∧
        lookupKey s.edgesMap (hov.key ++ "_" ++ tgtN.key) = none ∧
        lookupKey s.edgesMap (tgtN.key ++ "_" ++ hov.key) = none
    · exfalso
      have htrue : firedCreateEdge (createNewEdge p s) = true := by
        rw [hposr s hov tgtN hh he hc]
        simp [firedCreateEdge, resultEffects, isCreateEdgeNotify]
      rw [hfired] at htrue
      exact Bool.false_ne_true htrue
    · exact hneg s hov tgtN hh he hc
  · intro hcons h1 h2
    have hz : countBetween s.edges hov.key tgtN.key = 0 :=
      countBetween_eq_zero s.edges hov.key tgtN.key
        (by rw [← hcons]; exact h1) (by rw [← hcons]; exact h2)
    constructor
    · simp only [countBetween] at hz ⊢
      rw [List.countP_append, hz]
      simp
    · intro s2 hs2e hs2m hcase
      have hmemAB : ({ source := hov.key, target := tgtN.key } : IEdge) ∈ s2.edges := by
        rw [hs2e]
        exact List.mem_append.mpr (Or.inr (by simp))
      have hsome :
          (lookupKey s2.edgesMap (hov.key ++ "_" ++ tgtN.key)).isSome := by
        rw [hs2m]
        exact lookupKey_getEdgesMap_of_mem s2.edges _ hmemAB
      rcases hcase with ⟨hh2, he2⟩ | ⟨hh2, he2⟩
      · have hnc : ¬(hov ≠ tgtN ∧ p.canCreateEdge = true ∧
            lookupKey s2.edgesMap (hov.key ++ "_" ++ tgtN.key) = none ∧
            lookupKey s2.edgesMap (tgtN.key ++ "_" ++ hov.key) = none) := by
          rintro ⟨-, -, c3, -⟩
          rw [c3] at hsome
          simp at hsome
        refine ⟨?_, hneg s2 hov tgtN hh2 he2 hnc⟩
        rw [hneg s2 hov tgtN hh2 he2 hnc]
        simp [firedCreateEdge, resultEffects, isCreateEdgeNotify]
      · have hnc : ¬(tgtN ≠ hov ∧ p.canCreateEdge = true ∧
            lookupKey s2.edgesMap (tgtN.key ++ "_" ++ hov.key) = none ∧
            lookupKey s2.edgesMap (hov.key ++ "_" ++ tgtN.key) = none) := by
          rintro ⟨-, -, -, c4⟩
          rw [c4] at hsome
          simp at hsome
        refine ⟨?_, hneg s2 tgtN hov hh2 he2 hnc⟩
        rw [hneg s2 tgtN hov hh2 he2 hnc]
        simp [firedCreateEdge, resultEffects, isCreateEdgeNotify]

/-- C3 witness (the spec scenario): drawing a→b on the edgeless graph fires
`onCreateEdge`; after the caller appends the edge and the index is rebuilt,
the reverse attempt `createEdge(b, a)` fires nothing and leaves the collection
with exactly one edge between the pair. -/
theorem createNewEdge_spec_witness :
    firedCreateEdge (createNewEdge pRW exStateDraw) = true ∧
    firedCreateEdge (createNewEdge pRW exStateDraw2) = false ∧
    createNewEdge pRW exStateDraw2 =
      .ok (exStateDraw2, [Effect.removeElement "edge-custom-container"]) ∧
    countBetween exStateDraw2.edges nodeA.key nodeB.key = 1 := by
  have h := createNewEdge_spec pRW exStateDraw nodeA nodeB rfl rfl
  have h4 := h.2.2.2 (by decide) (by decide) (by decide)
  have h5 := h4.2 exStateDraw2 (by decide) (by decide) (Or.inr ⟨rfl, rfl⟩)
  exact ⟨(h.1).mpr ⟨by decide, rfl, by decide, by decide⟩, h5.1, h5.2, h4.1⟩

end GraphView
